import Mathlib

/-!
# Timer (src/host/Timer.cpp): stopwatch and split-time ledger

Shallow embedding of the `Timer` class.

Modelling conventions

* `double` values are exact rationals (`ℚ`): the arithmetic of the source is
  followed operation by operation, without rounding.  `1.0E9`, `1.0E6`,
  `1.0E-9`, `1.0E-6` are the rationals they denote.
* `time_t` and `long` are `Int`.  Signed overflow is undefined in C++, so
  the embedding describes the executions in which no subtraction overflows.
* The build target (`#ifdef __MACH__`) is a parameter `mach : Bool`:
  `true` selects the microsecond branches, `false` the nanosecond ones.
* A call that reads the clock (`gettimeofday`, `clock_gettime`) takes the
  sample it obtains as the argument `now`.
* The static `std::map<std::string, double> _timer_splits` is a list of
  key/value pairs, passed explicitly; new keys are inserted in ascending
  key order.
* A `std::string` is a `String`, one `Char` per `char`; its `length()` is
  taken to fit the `int` it is assigned to.
* `log_printf` belongs to the logging module, which is not part of this file:
  a call to it is recorded by its arguments.
-/

/-- Raw clock sample (`timespec`): whole seconds and the sub-second field.
The sub-second field is `tv_nsec`; the `__MACH__` branches read it as
`tv_usec`. -/
structure timespec where
  tv_sec : Int
  tv_nsec : Int
deriving DecidableEq, Repr

/-- The private members of a `Timer` object. -/
structure Timer where
  _running : Bool
  _start_time : timespec
  _end_time : timespec
  _elapsed_time : ℚ
deriving DecidableEq, Repr

namespace Timer

/-- The constant `1.0E6` (`__MACH__`) or `1.0E9` (otherwise) used by `diff`. -/
def unitScale (mach : Bool) : ℚ :=
  if mach then 1000000 else 1000000000

/-- The constant `1.0E-6` (`__MACH__`) or `1.0E-9` (otherwise) used by `getTime`. -/
def secFactor (mach : Bool) : ℚ :=
  if mach then 1 / 1000000 else 1 / 1000000000

/-- `Timer::diff(timespec start, timespec end)`.  The `__MACH__` line
`delta = end.tv_usec - startTimer.tv_usec` is read with `start` for
`startTimer`. -/
def diff (mach : Bool) (start end_ : timespec) : ℚ :=
  let delta : ℚ := ((end_.tv_nsec - start.tv_nsec : Int) : ℚ)
  if delta < 0 then
    let sec : ℚ := ((end_.tv_sec - start.tv_sec : Int) : ℚ)
    let nsec : ℚ := unitScale mach + delta
    sec * unitScale mach + nsec
  else
    let sec : ℚ := ((end_.tv_sec - start.tv_sec : Int) : ℚ)
    let nsec : ℚ := delta
    sec * unitScale mach + nsec

/-- `Timer::startTimer()`; `now` is the sample the clock returns. -/
def startTimer (t : Timer) (now : timespec) : Timer :=
  if !t._running then
    { t with _start_time := now, _running := true }
  else t

/-- `Timer::stopTimer()`; `now` is the sample the clock returns (stored in
`_end_time` on both build targets). -/
def stopTimer (mach : Bool) (t : Timer) (now : timespec) : Timer :=
  if t._running then
    { t with
      _end_time := now
      _running := false
      _elapsed_time := t._elapsed_time + diff mach t._start_time now }
  else t

/-- `Timer::resetTimer()`. -/
def resetTimer (t : Timer) : Timer :=
  { t with _elapsed_time := 0, _running := false }

/-- `Timer::restartTimer()`; `now` is the sample read by the nested
`startTimer()`. -/
def restartTimer (mach : Bool) (t : Timer) (now : timespec) : Timer :=
  if !t._running then
    startTimer
      { t with _elapsed_time := t._elapsed_time + diff mach t._start_time t._end_time }
      now
  else t

/-- `Timer::getTime()`: the returned seconds and the timer afterwards; `now`
is the sample read when the timer is running. -/
def getTime (mach : Bool) (t : Timer) (now : timespec) : ℚ × Timer :=
  if !t._running then
    (t._elapsed_time * secFactor mach, t)
  else
    let t1 : Timer :=
      { t with _elapsed_time := t._elapsed_time + diff mach t._start_time now }
    (t1._elapsed_time * secFactor mach, t1)

/-- The ledger `_timer_splits`: key/value pairs. -/
abbrev SplitMap := List (String × ℚ)

/-- `std::map::find`: the value stored under `key`, `none` standing for
`end()`. -/
def mapFind : SplitMap → String → Option ℚ
  | [], _ => none
  | (k, v) :: rest, key => if k = key then some v else mapFind rest key

/-- Placement of a new entry in ascending key order. -/
def insertSorted : SplitMap → String → ℚ → SplitMap
  | [], key, val => [(key, val)]
  | (k, v) :: rest, key, val =>
    if key < k then (key, val) :: (k, v) :: rest
    else (k, v) :: insertSorted rest key val

/-- `std::map::insert`: adds the pair unless the key is already present. -/
def mapInsert (m : SplitMap) (key : String) (val : ℚ) : SplitMap :=
  if (mapFind m key).isSome then m else insertSorted m key val

/-- `std::map::operator[]`, the map after the access: an absent key is
inserted with the value-initialised `0.0`. -/
def mapIndex (m : SplitMap) (key : String) : SplitMap :=
  mapInsert m key 0

/-- Write through the reference returned by `operator[]`: the value stored
under `key` becomes `f` of it. -/
def mapModify : SplitMap → String → (ℚ → ℚ) → SplitMap
  | [], _, _ => []
  | (k, v) :: rest, key, f =>
    if k = key then (k, f v) :: rest else (k, v) :: mapModify rest key f

/-- `Timer::recordSplit(msg)` (both overloads): the timer and the ledger
afterwards; `now` is the sample `getTime()` reads when the timer is running. -/
def recordSplit (mach : Bool) (t : Timer) (splits : SplitMap) (now : timespec)
    (msg : String) : Timer × SplitMap :=
  let r := getTime mach t now
  let time : ℚ := r.1
  if mapFind splits msg ≠ none then
    (r.2, mapModify (mapIndex splits msg) msg (fun v => v + time))
  else
    (r.2, mapInsert splits msg time)

/-- `Timer::getSplit(msg)` (both overloads): the returned seconds and the
ledger afterwards. -/
def getSplit (splits : SplitMap) (msg : String) : ℚ × SplitMap :=
  if mapFind splits msg = none then
    (0, splits)
  else
    ((mapFind (mapIndex splits msg) msg).getD 0, mapIndex splits msg)

/-- `Timer::clearSplits()`. -/
def clearSplits (_splits : SplitMap) : SplitMap := []

/-- The loop `for (int i=0; i < num_whitespaces; i++) formatted_msg << "."`,
by the number of iterations left. -/
def appendPeriods : Nat → String → String
  | 0, formatted_msg => formatted_msg
  | n + 1, formatted_msg => appendPeriods n (formatted_msg ++ ".")

/-- The body of the loop of `Timer::printSplits()` up to the `log_printf`
call: the text `formatted_msg.str()` built for the entry label `curr_msg`.
The inner loop runs `num_whitespaces` times, not at all when that is
negative. -/
def formatSplit (curr_msg : String) : String :=
  let msg_length : Int := (curr_msg.length : Int)
  let num_whitespaces : Int := 80 - 13 - 11 - msg_length - 3
  appendPeriods num_whitespaces.toNat curr_msg

/-- The iteration of `Timer::printSplits()` from `begin()` to `end()`: for
each entry the arguments `formatted_msg.str()` and `curr_split` of its
`log_printf(RESULT, "%s%.7f sec", ...)` call. -/
def printLines : SplitMap → List (String × ℚ)
  | [] => []
  | (curr_msg, curr_split) :: rest => (formatSplit curr_msg, curr_split) :: printLines rest

/-- `Timer::printSplits()`: the `log_printf` calls it makes, in order, and
the ledger afterwards. -/
def printSplits (splits : SplitMap) : List (String × ℚ) × SplitMap :=
  (printLines splits, splits)

/-! ## Trace helpers used to state the claims -/

/-- The unit scale as an integer: the number of sub-second units in a second. -/
def subUnits (mach : Bool) : Int :=
  if mach then 1000000 else 1000000000

/-- A sample whose sub-second field lies in `[0, unit_scale)`. -/
def wellFormed (mach : Bool) (s : timespec) : Prop :=
  0 ≤ s.tv_nsec ∧ s.tv_nsec < subUnits mach

instance (mach : Bool) (s : timespec) : Decidable (wellFormed mach s) :=
  inferInstanceAs (Decidable (0 ≤ s.tv_nsec ∧ s.tv_nsec < subUnits mach))

/-- The sample `a` is not later than `b`: seconds first, then the sub-second
field. -/
def sampleLe (a b : timespec) : Prop :=
  a.tv_sec < b.tv_sec ∨ (a.tv_sec = b.tv_sec ∧ a.tv_nsec ≤ b.tv_nsec)

instance (a b : timespec) : Decidable (sampleLe a b) :=
  inferInstanceAs (Decidable (a.tv_sec < b.tv_sec ∨ (a.tv_sec = b.tv_sec ∧ a.tv_nsec ≤ b.tv_nsec)))

/-- One call on a timer, with the sample the clock returns where the call
may read the clock. -/
inductive Call where
  | startTimer (now : timespec)
  | stopTimer (now : timespec)
  | resetTimer
  | restartTimer (now : timespec)
  | getTime (now : timespec)
deriving DecidableEq, Repr

/-- The clock sample a call comes with, if any. -/
def Call.sample : Call → Option timespec
  | .startTimer now => some now
  | .stopTimer now => some now
  | .resetTimer => none
  | .restartTimer now => some now
  | .getTime now => some now

/-- The timer after one call. -/
def step (mach : Bool) (t : Timer) : Call → Timer
  | .startTimer now => startTimer t now
  | .stopTimer now => stopTimer mach t now
  | .resetTimer => resetTimer t
  | .restartTimer now => restartTimer mach t now
  | .getTime now => (getTime mach t now).2

/-- The timer after a sequence of calls. -/
def runCalls (mach : Bool) (t : Timer) (calls : List Call) : Timer :=
  calls.foldl (step mach) t

/-- The clock samples of a sequence of calls are well formed and
non-decreasing. -/
def monotoneClock (mach : Bool) (calls : List Call) : Prop :=
  (∀ s ∈ calls.filterMap Call.sample, wellFormed mach s) ∧
  (calls.filterMap Call.sample).Chain' sampleLe

/-- The keys of a ledger are in strictly ascending order (the iteration
order of `std::map`). -/
def ascendingKeys (m : SplitMap) : Prop :=
  (m.map Prod.fst).Pairwise (fun a b => a < b)

/-- A run of complete `startTimer()` / `stopTimer()` pairs, one pair of
samples per cycle, with no other call in between. -/
def runCycles (mach : Bool) (t : Timer) (cycles : List (timespec × timespec)) : Timer :=
  cycles.foldl (fun acc c => stopTimer mach (startTimer acc c.1) c.2) t

/-- Modelled from the spec: the state after the zero-argument constructor
(declared in Timer.h, which is not part of the sources): not running, nothing
accumulated; the two samples are taken zeroed. -/
def fresh : Timer :=
  { _running := false, _start_time := ⟨0, 0⟩, _end_time := ⟨0, 0⟩, _elapsed_time := 0 }

/-- A run of `recordSplit` calls on the shared ledger: each call comes with
the timer it is made on, the sample its `getTime()` would read, and its label. -/
def recordAll (mach : Bool) (m : SplitMap) (calls : List (Timer × timespec × String)) :
    SplitMap :=
  calls.foldl (fun acc c => (recordSplit mach c.1 acc c.2.1 c.2.2).2) m

/-- The durations a run of `recordSplit` calls records under the label `l`. -/
def recordedUnder (mach : Bool) (calls : List (Timer × timespec × String)) (l : String) :
    List ℚ :=
  (calls.filter (fun c => c.2.2 = l)).map (fun c => (getTime mach c.1 c.2.1).1)

/-- The end-to-end scenario on an empty ledger: start at `s1`, stop at `e1`,
`recordSplit("load")`, start at `s2`, stop at `e2`, `recordSplit("load")`,
then `getSplit("load")`. -/
def loadScenario (mach : Bool) (t0 : Timer) (s1 e1 s2 e2 : timespec) : ℚ :=
  let a := stopTimer mach (startTimer t0 s1) e1
  let r1 := recordSplit mach a [] e1 "load"
  let b := stopTimer mach (startTimer r1.1 s2) e2
  let r2 := recordSplit mach b r1.2 e2 "load"
  (getSplit r2.2 "load").1

/-- The elapsed time between two samples in sub-second units, computed on
the combined counters `sec * unit_scale + subsec`. -/
def trueElapsed (mach : Bool) (start end_ : timespec) : ℚ :=
  ((end_.tv_sec : ℚ) * unitScale mach + (end_.tv_nsec : ℚ))
    - ((start.tv_sec : ℚ) * unitScale mach + (start.tv_nsec : ℚ))

/-! ## Auxiliary facts -/

theorem diff_of_subsec_le (mach : Bool) (s e : timespec) (h : s.tv_nsec ≤ e.tv_nsec) :
    diff mach s e = trueElapsed mach s e := by
  have h1 : ¬ (((e.tv_nsec - s.tv_nsec : Int) : ℚ) < 0) := by
    have : (0 : Int) ≤ e.tv_nsec - s.tv_nsec := by omega
    have : (0 : ℚ) ≤ ((e.tv_nsec - s.tv_nsec : Int) : ℚ) := by exact_mod_cast this
    linarith
  simp only [diff, trueElapsed, if_neg h1]
  push_cast
  ring

theorem diff_of_subsec_lt (mach : Bool) (s e : timespec) (h : e.tv_nsec < s.tv_nsec) :
    diff mach s e = trueElapsed mach s e + unitScale mach := by
  have h1 : (((e.tv_nsec - s.tv_nsec : Int) : ℚ) < 0) := by
    have : e.tv_nsec - s.tv_nsec < (0 : Int) := by omega
    exact_mod_cast this
  simp only [diff, trueElapsed, if_pos h1]
  push_cast
  ring

theorem stop_start_of_stopped (mach : Bool) (t : Timer) (s e : timespec)
    (h : t._running = false) :
    stopTimer mach (startTimer t s) e =
      { _running := false, _start_time := s, _end_time := e,
        _elapsed_time := t._elapsed_time + diff mach s e } := by
  simp [stopTimer, startTimer, h]

theorem runCycles_spec (mach : Bool) (cycles : List (timespec × timespec)) :
    ∀ t : Timer, t._running = false →
      (runCycles mach t cycles)._running = false ∧
      (runCycles mach t cycles)._elapsed_time =
        t._elapsed_time + (cycles.map (fun c => diff mach c.1 c.2)).sum := by
  induction cycles with
  | nil => intro t h; simp [runCycles, h]
  | cons c rest ih =>
    intro t h
    have hstep := stop_start_of_stopped mach t c.1 c.2 h
    have := ih (stopTimer mach (startTimer t c.1) c.2) (by rw [hstep])
    simp only [runCycles, List.foldl_cons, List.map_cons, List.sum_cons] at this ⊢
    refine ⟨this.1, ?_⟩
    rw [this.2, hstep]
    ring

theorem mapFind_insertSorted_self (m : SplitMap) (k : String) (v : ℚ)
    (h : mapFind m k = none) : mapFind (insertSorted m k v) k = some v := by
  induction m with
  | nil => simp [insertSorted, mapFind]
  | cons p rest ih =>
    obtain ⟨k0, v0⟩ := p
    by_cases hk : k0 = k
    · simp [mapFind, hk] at h
    · simp only [mapFind, if_neg hk] at h
      by_cases hlt : k < k0
      · simp [insertSorted, hlt, mapFind]
      · simp [insertSorted, hlt, mapFind, hk, ih h]

theorem mapFind_insertSorted_ne (m : SplitMap) (k k1 : String) (v : ℚ) (h : k1 ≠ k) :
    mapFind (insertSorted m k v) k1 = mapFind m k1 := by
  have h1 : ¬ k = k1 := fun e => h e.symm
  induction m with
  | nil => simp [insertSorted, mapFind, h1]
  | cons p rest ih =>
    obtain ⟨k0, v0⟩ := p
    by_cases hlt : k < k0
    · simp [insertSorted, hlt, mapFind, h1]
    · simp [insertSorted, hlt, mapFind, ih]

theorem mapFind_mapModify_self (m : SplitMap) (k : String) (f : ℚ → ℚ) :
    mapFind (mapModify m k f) k = (mapFind m k).map f := by
  induction m with
  | nil => simp [mapModify, mapFind]
  | cons p rest ih =>
    obtain ⟨k0, v0⟩ := p
    by_cases hk : k0 = k
    · simp [mapModify, mapFind, hk]
    · simp [mapModify, mapFind, hk, ih]

theorem mapFind_mapModify_ne (m : SplitMap) (k k1 : String) (f : ℚ → ℚ) (h : k1 ≠ k) :
    mapFind (mapModify m k f) k1 = mapFind m k1 := by
  induction m with
  | nil => simp [mapModify, mapFind]
  | cons p rest ih =>
    obtain ⟨k0, v0⟩ := p
    by_cases hk : k0 = k
    · have : ¬ k = k1 := fun e => h e.symm
      simp [mapModify, mapFind, hk, this]
    · simp [mapModify, mapFind, hk, ih]

theorem mapIndex_of_found (m : SplitMap) (k : String) (h : mapFind m k ≠ none) :
    mapIndex m k = m := by
  have : (mapFind m k).isSome = true := Option.isSome_iff_ne_none.mpr h
  simp [mapIndex, mapInsert, this]

theorem getSplit_fst (m : SplitMap) (l : String) :
    (getSplit m l).1 = (mapFind m l).getD 0 := by
  by_cases h : mapFind m l = none
  · simp [getSplit, h]
  · simp [getSplit, h, mapIndex_of_found m l h]

theorem getSplit_snd (m : SplitMap) (l : String) : (getSplit m l).2 = m := by
  by_cases h : mapFind m l = none
  · simp [getSplit, h]
  · simp [getSplit, h, mapIndex_of_found m l h]

theorem recordSplit_fst (mach : Bool) (t : Timer) (m : SplitMap) (now : timespec)
    (l : String) : (recordSplit mach t m now l).1 = (getTime mach t now).2 := by
  by_cases h : mapFind m l = none <;> simp [recordSplit, h]

theorem mapFind_recordSplit_self (mach : Bool) (t : Timer) (m : SplitMap) (now : timespec)
    (l : String) :
    mapFind (recordSplit mach t m now l).2 l
      = some ((mapFind m l).getD 0 + (getTime mach t now).1) := by
  by_cases h : mapFind m l = none
  · simp [recordSplit, h, mapInsert, mapFind_insertSorted_self m l _ h]
  · obtain ⟨v, hv⟩ := Option.ne_none_iff_exists'.mp h
    simp [recordSplit, h, mapIndex_of_found m l h, mapFind_mapModify_self, hv]

theorem mapFind_recordSplit_ne (mach : Bool) (t : Timer) (m : SplitMap) (now : timespec)
    (l l1 : String) (hne : l1 ≠ l) :
    mapFind (recordSplit mach t m now l).2 l1 = mapFind m l1 := by
  by_cases h : mapFind m l = none
  · simp [recordSplit, h, mapInsert, mapFind_insertSorted_ne m l l1 _ hne]
  · simp [recordSplit, h, mapIndex_of_found m l h, mapFind_mapModify_ne _ l l1 _ hne]

theorem getSplit_recordSplit_self (mach : Bool) (t : Timer) (m : SplitMap) (now : timespec)
    (l : String) :
    (getSplit (recordSplit mach t m now l).2 l).1
      = (getSplit m l).1 + (getTime mach t now).1 := by
  rw [getSplit_fst, getSplit_fst, mapFind_recordSplit_self]
  rfl

theorem getSplit_recordSplit_ne (mach : Bool) (t : Timer) (m : SplitMap) (now : timespec)
    (l l1 : String) (hne : l1 ≠ l) :
    (getSplit (recordSplit mach t m now l).2 l1).1 = (getSplit m l1).1 := by
  rw [getSplit_fst, getSplit_fst, mapFind_recordSplit_ne mach t m now l l1 hne]

theorem getSplit_recordAll (mach : Bool) (calls : List (Timer × timespec × String))
    (l : String) :
    ∀ m : SplitMap, (getSplit (recordAll mach m calls) l).1
      = (getSplit m l).1 + (recordedUnder mach calls l).sum := by
  induction calls with
  | nil => intro m; simp [recordAll, recordedUnder]
  | cons c rest ih =>
    intro m
    have hstep := ih (recordSplit mach c.1 m c.2.1 c.2.2).2
    simp only [recordAll, List.foldl_cons] at hstep ⊢
    rw [hstep]
    by_cases hl : c.2.2 = l
    · have : recordedUnder mach (c :: rest) l
          = (getTime mach c.1 c.2.1).1 :: recordedUnder mach rest l := by
        simp [recordedUnder, List.filter_cons, hl]
      rw [this, List.sum_cons, ← hl, getSplit_recordSplit_self, hl]
      ring
    · have : recordedUnder mach (c :: rest) l = recordedUnder mach rest l := by
        simp [recordedUnder, List.filter_cons, hl]
      rw [this, getSplit_recordSplit_ne mach c.1 m c.2.1 c.2.2 l (fun e => hl e.symm)]

/-! ## The time difference -/

/-- C2 (the code departs from the claim). On the borrow path `diff` keeps the
plain difference of the seconds fields and adds `unit_scale + delta`, so it
returns one full second more than the elapsed time: for the microsecond
samples (10 s, 900000) and (11 s, 100000) it returns 1200000, not 200000,
and for the nanosecond samples (10 s, 900000000) and (11 s, 100000000) it
returns 1200000000, while the elapsed times are 200000 and 200000000. -/
theorem C2_diff_borrow_adds_one_second :
    diff true ⟨10, 900000⟩ ⟨11, 100000⟩ = 1200000 ∧
    trueElapsed true ⟨10, 900000⟩ ⟨11, 100000⟩ = 200000 ∧
    diff false ⟨10, 900000000⟩ ⟨11, 100000000⟩ = 1200000000 ∧
    trueElapsed false ⟨10, 900000000⟩ ⟨11, 100000000⟩ = 200000000 := by
  refine ⟨?_, ?_, ?_, ?_⟩ <;> norm_num [diff, trueElapsed, unitScale]

/-! ## Stopwatch: cycles, reset, restart, live queries -/

/-- C3. Additivity across cycles: on a timer that is not running with nothing
accumulated, after any number of complete start/stop pairs (no other call in
between) the accumulated time is the sum of `diff s_i e_i` over the pairs,
the timer is not running, and `getTime` returns that sum converted to seconds
and leaves the timer as it is. -/
theorem C3_additivity_across_cycles (mach : Bool) (t : Timer)
    (cycles : List (timespec × timespec)) (now : timespec)
    (hrun : t._running = false) (hacc : t._elapsed_time = 0) :
    (runCycles mach t cycles)._elapsed_time
        = (cycles.map (fun c => diff mach c.1 c.2)).sum ∧
    (runCycles mach t cycles)._running = false ∧
    getTime mach (runCycles mach t cycles) now
        = ((cycles.map (fun c => diff mach c.1 c.2)).sum * secFactor mach,
            runCycles mach t cycles) := by
  obtain ⟨h1, h2⟩ := runCycles_spec mach cycles t hrun
  rw [hacc, zero_add] at h2
  refine ⟨h2, h1, ?_⟩
  simp [getTime, h1, h2]

/-- Witness of C3: three cycles on the freshly constructed timer, the second
one crossing a second boundary. -/
theorem C3_additivity_across_cycles_witness :
    fresh._running = false ∧ fresh._elapsed_time = 0 ∧
    ((runCycles false fresh
        [(⟨1, 0⟩, ⟨2, 500⟩), (⟨3, 900⟩, ⟨5, 100⟩), (⟨7, 0⟩, ⟨7, 40⟩)])._elapsed_time
        = ([(⟨1, 0⟩, ⟨2, 500⟩), (⟨3, 900⟩, ⟨5, 100⟩), ((⟨7, 0⟩ : timespec), (⟨7, 40⟩ : timespec))].map
            (fun c => diff false c.1 c.2)).sum ∧
     (runCycles false fresh
        [(⟨1, 0⟩, ⟨2, 500⟩), (⟨3, 900⟩, ⟨5, 100⟩), (⟨7, 0⟩, ⟨7, 40⟩)])._running = false ∧
     getTime false (runCycles false fresh
        [(⟨1, 0⟩, ⟨2, 500⟩), (⟨3, 900⟩, ⟨5, 100⟩), (⟨7, 0⟩, ⟨7, 40⟩)]) ⟨9, 0⟩
        = (([(⟨1, 0⟩, ⟨2, 500⟩), (⟨3, 900⟩, ⟨5, 100⟩), ((⟨7, 0⟩ : timespec), (⟨7, 40⟩ : timespec))].map
            (fun c => diff false c.1 c.2)).sum * secFactor false,
           runCycles false fresh
            [(⟨1, 0⟩, ⟨2, 500⟩), (⟨3, 900⟩, ⟨5, 100⟩), (⟨7, 0⟩, ⟨7, 40⟩)])) :=
  ⟨rfl, rfl, C3_additivity_across_cycles false fresh _ ⟨9, 0⟩ rfl rfl⟩

/-- C5. Reset clears state: from every timer state, after `resetTimer` the
timer is not running, `getTime` returns exactly 0 and changes nothing, and a
following start at `s` and stop at `e` leaves exactly `diff s e` accumulated. -/
theorem C5_reset_clears_state (mach : Bool) (t : Timer) (now s e : timespec) :
    (resetTimer t)._running = false ∧
    (getTime mach (resetTimer t) now).1 = 0 ∧
    (getTime mach (resetTimer t) now).2 = resetTimer t ∧
    (stopTimer mach (startTimer (resetTimer t) s) e)._elapsed_time = diff mach s e ∧
    (stopTimer mach (startTimer (resetTimer t) s) e)._running = false := by
  simp [resetTimer, getTime, stopTimer, startTimer]

/-- C6. Idempotent start: on a running timer `startTimer` with any fresh
sample leaves the whole state unchanged; and from any state, start, start,
stop ends in the same state as start, stop with the same stop sample. -/
theorem C6_idempotent_start (mach : Bool) (t : Timer) (now : timespec)
    (h : t._running = true) :
    startTimer t now = t ∧
    ∀ (t0 : Timer) (n1 n2 e : timespec),
      stopTimer mach (startTimer (startTimer t0 n1) n2) e
        = stopTimer mach (startTimer t0 n1) e := by
  refine ⟨by simp [startTimer, h], ?_⟩
  intro t0 n1 n2 e
  cases h0 : t0._running <;> simp [startTimer, h0]

/-- Witness of C6 on a timer started at (4 s, 250). -/
theorem C6_idempotent_start_witness :
    (startTimer fresh ⟨4, 250⟩)._running = true ∧
    (startTimer (startTimer fresh ⟨4, 250⟩) ⟨6, 0⟩ = startTimer fresh ⟨4, 250⟩ ∧
     ∀ (t0 : Timer) (n1 n2 e : timespec),
      stopTimer false (startTimer (startTimer t0 n1) n2) e
        = stopTimer false (startTimer t0 n1) e) :=
  ⟨rfl, C6_idempotent_start false (startTimer fresh ⟨4, 250⟩) ⟨6, 0⟩ rfl⟩

/-- C10. Restart is a no-op while running: on a running timer `restartTimer`
with any fresh sample leaves the whole state unchanged. -/
theorem C10_restart_noop_while_running (mach : Bool) (t : Timer) (now : timespec)
    (h : t._running = true) : restartTimer mach t now = t := by
  simp [restartTimer, h]

/-- Witness of C10 on a timer started at (4 s, 250). -/
theorem C10_restart_noop_while_running_witness :
    (startTimer fresh ⟨4, 250⟩)._running = true ∧
    restartTimer false (startTimer fresh ⟨4, 250⟩) ⟨6, 0⟩ = startTimer fresh ⟨4, 250⟩ :=
  ⟨rfl, C10_restart_noop_while_running false (startTimer fresh ⟨4, 250⟩) ⟨6, 0⟩ rfl⟩

/-- C8 (the code departs from the claim). A live query folds its delta into
the accumulated time, so the next live query counts the in-progress interval
again: on the timer started at (100 s, 0) with nothing accumulated, `getTime`
at (101 s, 0) returns 1 second and `getTime` at (102 s, 0) then returns 3
seconds, while `a + diff s t2` converted to seconds is 2. -/
theorem C8_live_query_double_counts :
    (getTime false (startTimer fresh ⟨100, 0⟩) ⟨101, 0⟩).1 = 1 ∧
    (getTime false (getTime false (startTimer fresh ⟨100, 0⟩) ⟨101, 0⟩).2 ⟨102, 0⟩).1 = 3 ∧
    ((startTimer fresh ⟨100, 0⟩)._elapsed_time + diff false ⟨100, 0⟩ ⟨102, 0⟩)
        * secFactor false = 2 := by
  refine ⟨?_, ?_, ?_⟩ <;>
    norm_num [getTime, startTimer, fresh, diff, unitScale, secFactor]

/-- C9 (the code departs from the claim). `restartTimer` adds the last
measured interval a second time before starting: from the freshly constructed
timer, start (10 s, 0), stop (11 s, 0), restart (20 s, 0), stop (21 s, 0)
leaves 3000000000 ns accumulated, while `diff s1 e1 + diff s2 e2` is
2000000000 ns. -/
theorem C9_restart_refolds_last_interval :
    (stopTimer false
        (restartTimer false (stopTimer false (startTimer fresh ⟨10, 0⟩) ⟨11, 0⟩) ⟨20, 0⟩)
        ⟨21, 0⟩)._elapsed_time = 3000000000 ∧
    diff false ⟨10, 0⟩ ⟨11, 0⟩ + diff false ⟨20, 0⟩ ⟨21, 0⟩ = 2000000000 := by
  refine ⟨?_, ?_⟩ <;>
    norm_num [stopTimer, restartTimer, startTimer, fresh, diff, unitScale]

/-! ## Stopwatch: frame properties -/

/-- C7. No-op stop when not running: on a timer that is not running,
`stopTimer` with any fresh sample leaves the whole state unchanged
(accumulated time, both samples and the running flag). -/
theorem C7_stop_noop_when_stopped (mach : Bool) (t : Timer) (now : timespec)
    (h : t._running = false) : stopTimer mach t now = t := by
  simp [stopTimer, h]

/-- Witness of C7 on the freshly constructed timer. -/
theorem C7_stop_noop_when_stopped_witness :
    fresh._running = false ∧ stopTimer false fresh ⟨5, 7⟩ = fresh :=
  ⟨rfl, C7_stop_noop_when_stopped false fresh ⟨5, 7⟩ rfl⟩

/-! ## Split ledger -/

/-- C4. Split accumulation and ledger invariant: for every ledger, label and
stopped timer, whose `getTime` reading is the accumulated time converted to
seconds, `recordSplit` makes `getSplit` of the label its previous value (0 if
absent) plus that reading, leaves `getSplit` of every other label and the
timer unchanged; and after any run of `recordSplit` calls on an empty ledger
(as constructed, or after `clearSplits`) `getSplit l` is the sum of the
durations recorded under exactly `l`, so two recordings under one label give
their sum. -/
theorem C4_split_accumulation (mach : Bool) (t : Timer) (m : SplitMap) (now : timespec)
    (label : String) (hstop : t._running = false) :
    (getTime mach t now).1 = t._elapsed_time * secFactor mach ∧
    (getSplit (recordSplit mach t m now label).2 label).1
        = (getSplit m label).1 + t._elapsed_time * secFactor mach ∧
    (mapFind m label = none → (getSplit m label).1 = 0) ∧
    (∀ l : String, l ≠ label →
        (getSplit (recordSplit mach t m now label).2 l).1 = (getSplit m l).1) ∧
    (recordSplit mach t m now label).1 = t ∧
    (∀ (calls : List (Timer × timespec × String)) (l : String),
        (getSplit (recordAll mach [] calls) l).1 = (recordedUnder mach calls l).sum ∧
        (getSplit (recordAll mach (clearSplits m) calls) l).1
          = (recordedUnder mach calls l).sum) ∧
    (∀ (t1 t2 : Timer) (n1 n2 : timespec),
        (getSplit (recordSplit mach t2 (recordSplit mach t1 [] n1 label).2 n2 label).2
            label).1
          = (getTime mach t1 n1).1 + (getTime mach t2 n2).1) := by
  have hread : (getTime mach t now).1 = t._elapsed_time * secFactor mach := by
    simp [getTime, hstop]
  have hempty : ∀ l : String, (getSplit [] l).1 = 0 := by
    intro l; simp [getSplit, mapFind]
  refine ⟨hread, ?_, ?_, ?_, ?_, ?_, ?_⟩
  · rw [getSplit_recordSplit_self, hread]
  · intro h0; rw [getSplit_fst, h0]; rfl
  · intro l hl; exact getSplit_recordSplit_ne mach t m now label l hl
  · rw [recordSplit_fst]; simp [getTime, hstop]
  · intro calls l
    have h := getSplit_recordAll mach calls l []
    rw [hempty, zero_add] at h
    exact ⟨h, h⟩
  · intro t1 t2 n1 n2
    rw [getSplit_recordSplit_self, getSplit_recordSplit_self, hempty, zero_add]

/-- Witness of C4: a stopped timer holding 1.5 s records under "load" on a
ledger that already has "load" and "solve". -/
theorem C4_split_accumulation_witness :
    (⟨false, ⟨0, 0⟩, ⟨1, 500000000⟩, 1500000000⟩ : Timer)._running = false ∧
    (getSplit (recordSplit false ⟨false, ⟨0, 0⟩, ⟨1, 500000000⟩, 1500000000⟩
        [("load", 2), ("solve", 7)] ⟨3, 0⟩ "load").2 "load").1
      = (getSplit [("load", 2), ("solve", 7)] "load").1
          + (⟨false, ⟨0, 0⟩, ⟨1, 500000000⟩, 1500000000⟩ : Timer)._elapsed_time
              * secFactor false :=
  ⟨rfl, (C4_split_accumulation false ⟨false, ⟨0, 0⟩, ⟨1, 500000000⟩, 1500000000⟩
      [("load", 2), ("solve", 7)] ⟨3, 0⟩ "load" rfl).2.1⟩

/-! ## End-to-end scenario -/

/-- C1 as stated fails: from the freshly constructed timer and an empty
ledger, with the nanosecond samples (0 s, 0) to (0 s, 500000000) and
(10 s, 0) to (11 s, 500000000), which measure 0.5 s and 1.5 s without a
borrow, the scenario leaves `getSplit("load")` different from 2. -/
theorem C1_scenario_not_two :
    fresh._running = false ∧ fresh._elapsed_time = 0 ∧
    trueElapsed false ⟨0, 0⟩ ⟨0, 500000000⟩ * secFactor false = 1 / 2 ∧
    trueElapsed false ⟨10, 0⟩ ⟨11, 500000000⟩ * secFactor false = 3 / 2 ∧
    loadScenario false fresh ⟨0, 0⟩ ⟨0, 500000000⟩ ⟨10, 0⟩ ⟨11, 500000000⟩ ≠ 2 := by
  refine ⟨rfl, rfl, ?_, ?_, ?_⟩
  · norm_num [trueElapsed, unitScale, secFactor]
  · norm_num [trueElapsed, unitScale, secFactor]
  · have h : loadScenario false fresh ⟨0, 0⟩ ⟨0, 500000000⟩ ⟨10, 0⟩ ⟨11, 500000000⟩
        = 5 / 2 := by
      simp [loadScenario, recordSplit, getSplit, getTime, stopTimer, startTimer, fresh,
        mapFind, mapInsert, mapIndex, mapModify, insertSorted, diff, unitScale, secFactor]
      norm_num
    rw [h]
    norm_num

/-- C1, amended. From a timer that is not running with nothing accumulated
and an empty ledger, when the two intervals measure 0.5 s and 1.5 s and no
sub-second borrow occurs, the scenario leaves `getSplit("load")` equal to 2.5
seconds: the first recording adds 0.5 s and, the timer not being reset, the
second adds the cumulative reading 2.0 s. -/
theorem C1_scenario_cumulative (mach : Bool) (t0 : Timer) (s1 e1 s2 e2 : timespec)
    (hrun : t0._running = false) (hacc : t0._elapsed_time = 0)
    (hb1 : s1.tv_nsec ≤ e1.tv_nsec) (hb2 : s2.tv_nsec ≤ e2.tv_nsec)
    (hd1 : trueElapsed mach s1 e1 * secFactor mach = 1 / 2)
    (hd2 : trueElapsed mach s2 e2 * secFactor mach = 3 / 2) :
    loadScenario mach t0 s1 e1 s2 e2 = 5 / 2 := by
  have ha := stop_start_of_stopped mach t0 s1 e1 hrun
  rw [hacc, zero_add, diff_of_subsec_le mach s1 e1 hb1] at ha
  unfold loadScenario
  simp only []
  rw [getSplit_recordSplit_self, getSplit_recordSplit_self, recordSplit_fst, ha]
  have hg : (getTime mach
      ({ _running := false, _start_time := s1, _end_time := e1,
         _elapsed_time := trueElapsed mach s1 e1 } : Timer) e1)
      = (trueElapsed mach s1 e1 * secFactor mach,
         { _running := false, _start_time := s1, _end_time := e1,
           _elapsed_time := trueElapsed mach s1 e1 }) := by
    simp [getTime]
  rw [hg]
  have hb := stop_start_of_stopped mach
    ({ _running := false, _start_time := s1, _end_time := e1,
       _elapsed_time := trueElapsed mach s1 e1 } : Timer) s2 e2 rfl
  rw [hb, diff_of_subsec_le mach s2 e2 hb2]
  simp only [getTime, getSplit, mapFind, Bool.not_false, if_true]
  norm_num
  linarith

/-- Witness of C1 (amended) on the nanosecond samples of the counterexample. -/
theorem C1_scenario_cumulative_witness :
    fresh._running = false ∧ fresh._elapsed_time = 0 ∧
    (⟨0, 0⟩ : timespec).tv_nsec ≤ (⟨0, 500000000⟩ : timespec).tv_nsec ∧
    (⟨10, 0⟩ : timespec).tv_nsec ≤ (⟨11, 500000000⟩ : timespec).tv_nsec ∧
    trueElapsed false ⟨0, 0⟩ ⟨0, 500000000⟩ * secFactor false = 1 / 2 ∧
    trueElapsed false ⟨10, 0⟩ ⟨11, 500000000⟩ * secFactor false = 3 / 2 ∧
    loadScenario false fresh ⟨0, 0⟩ ⟨0, 500000000⟩ ⟨10, 0⟩ ⟨11, 500000000⟩ = 5 / 2 :=
  ⟨rfl, rfl, by decide, by decide,
    by norm_num [trueElapsed, unitScale, secFactor],
    by norm_num [trueElapsed, unitScale, secFactor],
    C1_scenario_cumulative false fresh ⟨0, 0⟩ ⟨0, 500000000⟩ ⟨10, 0⟩ ⟨11, 500000000⟩
      rfl rfl (by decide) (by decide)
      (by norm_num [trueElapsed, unitScale, secFactor])
      (by norm_num [trueElapsed, unitScale, secFactor])⟩

/-! ## Ledger queries -/

theorem mapFind_eq_none_of_not_mem (m : SplitMap) (l : String)
    (h : l ∉ m.map Prod.fst) : mapFind m l = none := by
  induction m with
  | nil => rfl
  | cons p rest ih =>
    obtain ⟨k0, v0⟩ := p
    simp only [List.map_cons, List.mem_cons, not_or] at h
    have hk : ¬ k0 = l := fun e => h.1 e.symm
    simp [mapFind, hk, ih h.2]

theorem recordedUnder_of_unused (mach : Bool) (calls : List (Timer × timespec × String))
    (l : String) (h : ∀ c ∈ calls, c.2.2 ≠ l) : recordedUnder mach calls l = [] := by
  have : calls.filter (fun c => decide (c.2.2 = l)) = [] := by
    rw [List.filter_eq_nil_iff]
    intro c hc
    simpa using h c hc
  simp [recordedUnder, this]

/-- C11. Unknown split default: for every ledger and every label that has no
entry in it, `getSplit` returns exactly 0 and leaves the ledger as it is, so
no entry is added; this covers every label not recorded since the ledger was
empty (constructed or cleared). -/
theorem C11_unknown_split_default (m : SplitMap) (label : String)
    (habsent : label ∉ m.map Prod.fst) :
    getSplit m label = (0, m) ∧
    (getSplit m label).2.length = m.length ∧
    ∀ (mach : Bool) (calls : List (Timer × timespec × String)),
      (∀ c ∈ calls, c.2.2 ≠ label) →
        getSplit (recordAll mach (clearSplits m) calls) label
          = (0, recordAll mach (clearSplits m) calls) := by
  have h0 : getSplit m label = (0, m) := by
    simp [getSplit, mapFind_eq_none_of_not_mem m label habsent]
  refine ⟨h0, by rw [h0], ?_⟩
  intro mach calls hc
  have h1 := getSplit_recordAll mach calls label (clearSplits m)
  have h2 : (getSplit (clearSplits m) label).1 = 0 := by
    simp [getSplit, clearSplits, mapFind]
  rw [h2, recordedUnder_of_unused mach calls label hc] at h1
  have h3 := getSplit_snd (recordAll mach (clearSplits m) calls) label
  refine Prod.ext ?_ h3
  rw [h1]; simp

/-- Witness of C11: "never-seen" on a ledger holding "load" and "solve". -/
theorem C11_unknown_split_default_witness :
    "never-seen" ∉ ([("load", 2), ("solve", 7)] : SplitMap).map Prod.fst ∧
    getSplit [("load", 2), ("solve", 7)] "never-seen"
      = (0, [("load", 2), ("solve", 7)]) :=
  ⟨by decide,
   (C11_unknown_split_default [("load", 2), ("solve", 7)] "never-seen" (by decide)).1⟩

/-- C12. Clear empties ledger: for every ledger, after `clearSplits` the
ledger has no entries and `getSplit` returns 0 for every label, the
previously recorded ones included, and leaves the ledger empty. -/
theorem C12_clear_empties_ledger (m : SplitMap) :
    clearSplits m = [] ∧
    (clearSplits m).length = 0 ∧
    (∀ l : String, getSplit (clearSplits m) l = (0, [])) ∧
    (∀ e ∈ m, getSplit (clearSplits m) e.1 = (0, [])) := by
  have h : ∀ l : String, getSplit (clearSplits m) l = (0, []) := by
    intro l; simp [getSplit, clearSplits, mapFind]
  exact ⟨rfl, rfl, h, fun e _ => h e.1⟩

/-! ## Queries of the elapsed time -/

/-- C13. `getTime` on a stopped timer is a pure query: it returns the
accumulated time multiplied by the conversion factor (1e-9 for nanosecond
samples, 1e-6 for microsecond samples) and leaves the whole timer state
unchanged, so a repeated call returns the same value. -/
theorem C13_getTime_stopped_pure (mach : Bool) (t : Timer) (now : timespec)
    (hstop : t._running = false) :
    getTime mach t now = (t._elapsed_time * secFactor mach, t) ∧
    secFactor false = 1 / 1000000000 ∧ secFactor true = 1 / 1000000 ∧
    ∀ now2 : timespec, getTime mach (getTime mach t now).2 now2 = getTime mach t now := by
  have h : ∀ n : timespec, getTime mach t n = (t._elapsed_time * secFactor mach, t) := by
    intro n; simp [getTime, hstop]
  refine ⟨h now, by simp [secFactor], by simp [secFactor], ?_⟩
  intro now2
  rw [h now]
  exact h now2

/-- Witness of C13: a stopped nanosecond timer holding 1.5 s. -/
theorem C13_getTime_stopped_pure_witness :
    (⟨false, ⟨0, 0⟩, ⟨1, 500000000⟩, 1500000000⟩ : Timer)._running = false ∧
    getTime false ⟨false, ⟨0, 0⟩, ⟨1, 500000000⟩, 1500000000⟩ ⟨9, 0⟩
      = ((⟨false, ⟨0, 0⟩, ⟨1, 500000000⟩, 1500000000⟩ : Timer)._elapsed_time
            * secFactor false,
         ⟨false, ⟨0, 0⟩, ⟨1, 500000000⟩, 1500000000⟩) :=
  ⟨rfl, (C13_getTime_stopped_pure false ⟨false, ⟨0, 0⟩, ⟨1, 500000000⟩, 1500000000⟩
      ⟨9, 0⟩ rfl).1⟩

/-- C14. `getTime` on a running timer is a side-effecting query: with the
fresh sample `now` it sets the accumulated time to
`accumulated + diff start_sample now`, returns that new value converted to
seconds, and leaves the running flag set and both stored samples unchanged. -/
theorem C14_getTime_running_folds (mach : Bool) (t : Timer) (now : timespec)
    (hrun : t._running = true) :
    (getTime mach t now).2._elapsed_time
        = t._elapsed_time + diff mach t._start_time now ∧
    (getTime mach t now).1
        = (t._elapsed_time + diff mach t._start_time now) * secFactor mach ∧
    (getTime mach t now).2._running = true ∧
    (getTime mach t now).2._start_time = t._start_time ∧
    (getTime mach t now).2._end_time = t._end_time := by
  simp [getTime, hrun]

/-- Witness of C14 on a timer started at (4 s, 250), queried at (6 s, 0). -/
theorem C14_getTime_running_folds_witness :
    (startTimer fresh ⟨4, 250⟩)._running = true ∧
    (getTime false (startTimer fresh ⟨4, 250⟩) ⟨6, 0⟩).2._elapsed_time
        = (startTimer fresh ⟨4, 250⟩)._elapsed_time
            + diff false (startTimer fresh ⟨4, 250⟩)._start_time ⟨6, 0⟩ :=
  ⟨rfl, (C14_getTime_running_folds false (startTimer fresh ⟨4, 250⟩) ⟨6, 0⟩ rfl).1⟩

/-- C15. `diff` follows the borrow formula: with `delta` the difference of
the sub-second fields, it is `(end.sec - start.sec) * unit_scale + delta`
when `delta >= 0` and `(end.sec - start.sec) * unit_scale + (unit_scale +
delta)` when `delta < 0`; the seconds difference is the plain difference of
the seconds fields in both cases, and the unit scale is 1e6 or 1e9. -/
theorem C15_diff_borrow_formula (mach : Bool) (start end_ : timespec) :
    (0 ≤ end_.tv_nsec - start.tv_nsec →
      diff mach start end_
        = ((end_.tv_sec - start.tv_sec : Int) : ℚ) * unitScale mach
            + ((end_.tv_nsec - start.tv_nsec : Int) : ℚ)) ∧
    (end_.tv_nsec - start.tv_nsec < 0 →
      diff mach start end_
        = ((end_.tv_sec - start.tv_sec : Int) : ℚ) * unitScale mach
            + (unitScale mach + ((end_.tv_nsec - start.tv_nsec : Int) : ℚ))) ∧
    unitScale true = 1000000 ∧ unitScale false = 1000000000 := by
  refine ⟨?_, ?_, by simp [unitScale], by simp [unitScale]⟩
  · intro h
    have h1 : ¬ (((end_.tv_nsec - start.tv_nsec : Int) : ℚ) < 0) := by
      have : (0 : ℚ) ≤ ((end_.tv_nsec - start.tv_nsec : Int) : ℚ) := by exact_mod_cast h
      linarith
    simp only [diff, if_neg h1]
  · intro h
    have h1 : (((end_.tv_nsec - start.tv_nsec : Int) : ℚ) < 0) := by exact_mod_cast h
    simp only [diff, if_pos h1]

/-- C16. Restart on a stopped timer folds the last interval again: with the
fresh sample `now`, `restartTimer` sets the accumulated time to
`accumulated + diff start_sample end_sample` on the stored pair, then sets
`start_sample = now` and the running flag, and leaves `end_sample` unchanged. -/
theorem C16_restart_stopped_refolds (mach : Bool) (t : Timer) (now : timespec)
    (hstop : t._running = false) :
    restartTimer mach t now =
      { _running := true, _start_time := now, _end_time := t._end_time,
        _elapsed_time := t._elapsed_time + diff mach t._start_time t._end_time } := by
  simp [restartTimer, startTimer, hstop]

/-- Witness of C16: a stopped timer that measured (10 s, 0) to (11 s, 0),
restarted at (20 s, 0). -/
theorem C16_restart_stopped_refolds_witness :
    (⟨false, ⟨10, 0⟩, ⟨11, 0⟩, 1000000000⟩ : Timer)._running = false ∧
    restartTimer false ⟨false, ⟨10, 0⟩, ⟨11, 0⟩, 1000000000⟩ ⟨20, 0⟩ =
      { _running := true, _start_time := ⟨20, 0⟩,
        _end_time := (⟨false, ⟨10, 0⟩, ⟨11, 0⟩, 1000000000⟩ : Timer)._end_time,
        _elapsed_time := (⟨false, ⟨10, 0⟩, ⟨11, 0⟩, 1000000000⟩ : Timer)._elapsed_time
          + diff false (⟨false, ⟨10, 0⟩, ⟨11, 0⟩, 1000000000⟩ : Timer)._start_time
              (⟨false, ⟨10, 0⟩, ⟨11, 0⟩, 1000000000⟩ : Timer)._end_time } :=
  ⟨rfl, C16_restart_stopped_refolds false ⟨false, ⟨10, 0⟩, ⟨11, 0⟩, 1000000000⟩ ⟨20, 0⟩ rfl⟩

/-! ## Sign of the measured intervals -/

theorem unitScale_eq_subUnits (mach : Bool) : unitScale mach = ((subUnits mach : Int) : ℚ) := by
  cases mach <;> simp [unitScale, subUnits]

theorem secFactor_pos (mach : Bool) : 0 < secFactor mach := by
  cases mach <;> norm_num [secFactor]

theorem sampleLe_trans (a b c : timespec) (hab : sampleLe a b) (hbc : sampleLe b c) :
    sampleLe a c := by
  unfold sampleLe at *
  omega

theorem diff_nonneg (mach : Bool) (s e : timespec) (hs : wellFormed mach s)
    (he : wellFormed mach e) (hle : sampleLe s e) : 0 ≤ diff mach s e := by
  obtain ⟨_, hs2⟩ := hs
  obtain ⟨he1, _⟩ := he
  have hunit : (0 : Int) ≤ subUnits mach := by cases mach <;> simp [subUnits]
  have hsec : (0 : ℚ) ≤ ((e.tv_sec - s.tv_sec : Int) : ℚ) := by
    have : (0 : Int) ≤ e.tv_sec - s.tv_sec := by unfold sampleLe at hle; omega
    exact_mod_cast this
  have hscale : (0 : ℚ) ≤ unitScale mach := by
    rw [unitScale_eq_subUnits]; exact_mod_cast hunit
  have hprod := mul_nonneg hsec hscale
  by_cases hd : (((e.tv_nsec - s.tv_nsec : Int) : ℚ) < 0)
  · have hfill : (0 : ℚ) ≤ unitScale mach + ((e.tv_nsec - s.tv_nsec : Int) : ℚ) := by
      rw [unitScale_eq_subUnits]
      have : (0 : Int) ≤ subUnits mach + (e.tv_nsec - s.tv_nsec) := by omega
      exact_mod_cast this
    simp only [diff, if_pos hd]
    linarith
  · simp only [diff, if_neg hd]
    linarith

/-- C17. Live queries are monotone: on a running timer whose start sample is
`s`, for fresh samples `t1`, `t2` with `s <= t1 <= t2` and sub-second fields
in `[0, unit_scale)` (used for `s` and `t2` only), the value `getTime` returns at `t2` is at least the
value the preceding `getTime` returned at `t1`. -/
theorem C17_live_queries_monotone (mach : Bool) (t : Timer) (t1 t2 : timespec)
    (hrun : t._running = true)
    (hs : wellFormed mach t._start_time) (h2 : wellFormed mach t2)
    (hle1 : sampleLe t._start_time t1) (hle2 : sampleLe t1 t2) :
    (getTime mach t t1).1 ≤ (getTime mach (getTime mach t t1).2 t2).1 := by
  have hd := diff_nonneg mach t._start_time t2 hs h2
    (sampleLe_trans _ _ _ hle1 hle2)
  have hf := secFactor_pos mach
  have := mul_nonneg hd hf.le
  simp only [getTime, hrun, Bool.not_true, Bool.false_eq_true, if_false]
  linarith

/-- Witness of C17: a nanosecond timer started at (100 s, 900000000), queried
at (101 s, 100000000) and then at (101 s, 900000000). -/
theorem C17_live_queries_monotone_witness :
    (startTimer fresh ⟨100, 900000000⟩)._running = true ∧
    wellFormed false (startTimer fresh ⟨100, 900000000⟩)._start_time ∧
    wellFormed false ⟨101, 900000000⟩ ∧
    sampleLe (startTimer fresh ⟨100, 900000000⟩)._start_time ⟨101, 100000000⟩ ∧
    sampleLe ⟨101, 100000000⟩ ⟨101, 900000000⟩ ∧
    (getTime false (startTimer fresh ⟨100, 900000000⟩) ⟨101, 100000000⟩).1
      ≤ (getTime false
          (getTime false (startTimer fresh ⟨100, 900000000⟩) ⟨101, 100000000⟩).2
          ⟨101, 900000000⟩).1 :=
  ⟨rfl, by decide, by decide, by decide, by decide,
    C17_live_queries_monotone false (startTimer fresh ⟨100, 900000000⟩)
      ⟨101, 100000000⟩ ⟨101, 900000000⟩ rfl (by decide) (by decide)
      (by decide) (by decide)⟩

theorem runCalls_nonneg_aux (mach : Bool) (calls : List Call) :
    ∀ t : Timer, 0 ≤ t._elapsed_time →
      (t._running = true → wellFormed mach t._start_time ∧
        ∀ s ∈ calls.filterMap Call.sample, sampleLe t._start_time s) →
      (∀ s ∈ calls.filterMap Call.sample, wellFormed mach s) →
      (calls.filterMap Call.sample).Pairwise sampleLe →
      (∀ now : timespec, Call.restartTimer now ∉ calls) →
      0 ≤ (runCalls mach t calls)._elapsed_time := by
  induction calls with
  | nil => intro t h _ _ _ _; simpa [runCalls] using h
  | cons c rest ih =>
    intro t hacc hinv hwf hpw hno
    have hno1 : ∀ now : timespec, Call.restartTimer now ∉ rest :=
      fun now hmem => hno now (List.mem_cons_of_mem _ hmem)
    have hrun : runCalls mach t (c :: rest) = runCalls mach (step mach t c) rest := by
      simp [runCalls]
    rw [hrun]
    cases c with
    | restartTimer now => exact absurd (List.mem_cons_self _ _) (hno now)
    | resetTimer =>
      simp only [List.filterMap_cons, Call.sample] at hinv hwf hpw
      apply ih _ _ _ hwf hpw hno1
      · simp [step, resetTimer]
      · intro h; simp [step, resetTimer] at h
    | startTimer now =>
      simp only [List.filterMap_cons, Call.sample, List.mem_cons, List.pairwise_cons,
        forall_eq_or_imp] at hinv hwf hpw
      apply ih _ _ _ hwf.2 hpw.2 hno1
      · cases hr : t._running <;> simpa [step, startTimer, hr] using hacc
      · intro _
        cases hr : t._running
        · simpa [step, startTimer, hr, -List.mem_filterMap] using ⟨hwf.1, hpw.1⟩
        · have := hinv hr
          simpa [step, startTimer, hr, -List.mem_filterMap] using ⟨this.1, this.2.2⟩
    | stopTimer now =>
      simp only [List.filterMap_cons, Call.sample, List.mem_cons, List.pairwise_cons,
        forall_eq_or_imp] at hinv hwf hpw
      apply ih _ _ _ hwf.2 hpw.2 hno1
      · cases hr : t._running
        · simpa [step, stopTimer, hr] using hacc
        · have := hinv hr
          have hd := diff_nonneg mach t._start_time now this.1 hwf.1 this.2.1
          simp only [step, stopTimer, hr, if_true]
          linarith
      · intro h
        cases hr : t._running
        · simp [step, stopTimer, hr] at h
        · simp [step, stopTimer, hr] at h
    | getTime now =>
      simp only [List.filterMap_cons, Call.sample, List.mem_cons, List.pairwise_cons,
        forall_eq_or_imp] at hinv hwf hpw
      apply ih _ _ _ hwf.2 hpw.2 hno1
      · cases hr : t._running
        · simpa [step, getTime, hr] using hacc
        · have := hinv hr
          have hd := diff_nonneg mach t._start_time now this.1 hwf.1 this.2.1
          simp only [step, getTime, hr, Bool.not_true, Bool.false_eq_true, if_false]
          linarith
      · intro h
        cases hr : t._running
        · simp [step, getTime, hr] at h
        · have := hinv hr
          simpa [step, getTime, hr, -List.mem_filterMap] using ⟨this.1, this.2.2⟩

/-- Without `restartTimer` the accumulated time stays non-negative: from the
freshly constructed timer, any sequence of `startTimer`, `stopTimer`,
`resetTimer` and `getTime` calls on a well-formed non-decreasing clock leaves
a non-negative accumulated time. -/
theorem runCalls_nonneg_of_no_restart (mach : Bool) (calls : List Call)
    (hclock : monotoneClock mach calls)
    (hno : ∀ now : timespec, Call.restartTimer now ∉ calls) :
    0 ≤ (runCalls mach fresh calls)._elapsed_time := by
  haveI : IsTrans timespec sampleLe := ⟨sampleLe_trans⟩
  exact runCalls_nonneg_aux mach calls fresh (by simp [fresh]) (by simp [fresh])
    hclock.1 (List.chain'_iff_pairwise.mp hclock.2) hno

/-- C18 (the code departs from the claim). `resetTimer` keeps the stored
samples and `restartTimer` adds `diff start_sample end_sample` of the stored
pair: from the freshly constructed timer the calls start at (5 s, 0), reset,
restart at (6 s, 0), whose samples are well formed and non-decreasing, leave
-5000000000 ns accumulated, and `getTime` at (6 s, 0) then returns -5
seconds; a stop at (7 s, 0) instead leaves -4000000000 ns and `getTime`
returns -4 seconds. -/
theorem C18_restart_after_reset_goes_negative :
    monotoneClock false
      [Call.startTimer ⟨5, 0⟩, Call.resetTimer, Call.restartTimer ⟨6, 0⟩,
        Call.getTime ⟨6, 0⟩, Call.stopTimer ⟨7, 0⟩, Call.getTime ⟨7, 0⟩] ∧
    (runCalls false fresh
      [Call.startTimer ⟨5, 0⟩, Call.resetTimer,
        Call.restartTimer ⟨6, 0⟩])._elapsed_time = -5000000000 ∧
    (getTime false (runCalls false fresh
      [Call.startTimer ⟨5, 0⟩, Call.resetTimer, Call.restartTimer ⟨6, 0⟩]) ⟨6, 0⟩).1 = -5 ∧
    (runCalls false fresh
      [Call.startTimer ⟨5, 0⟩, Call.resetTimer, Call.restartTimer ⟨6, 0⟩,
        Call.stopTimer ⟨7, 0⟩])._elapsed_time = -4000000000 ∧
    (getTime false (runCalls false fresh
      [Call.startTimer ⟨5, 0⟩, Call.resetTimer, Call.restartTimer ⟨6, 0⟩,
        Call.stopTimer ⟨7, 0⟩]) ⟨7, 0⟩).1 = -4 := by
  refine ⟨?_, ?_, ?_, ?_, ?_⟩
  · refine ⟨by decide, ?_⟩
    simp [Call.sample, sampleLe]
  all_goals
    norm_num [runCalls, step, getTime, stopTimer, restartTimer, resetTimer, startTimer,
      fresh, diff, unitScale, secFactor]

/-! ## Printing the ledger -/

theorem appendPeriods_eq (n : Nat) :
    ∀ s : String, appendPeriods n s = s ++ String.mk (List.replicate n '.') := by
  induction n with
  | zero =>
    intro s
    apply String.ext
    simp [appendPeriods]
  | succ n ih =>
    intro s
    rw [appendPeriods, ih]
    apply String.ext
    simp [String.data_append, List.replicate_succ]

theorem formatSplit_eq (label : String) :
    formatSplit label = label ++ String.mk (List.replicate (53 - label.length) '.') := by
  have h : ((80 : Int) - 13 - 11 - (label.length : Int) - 3).toNat = 53 - label.length := by
    omega
  simp only [formatSplit, h, appendPeriods_eq]

theorem printLines_eq_map (m : SplitMap) :
    printLines m
      = m.map (fun e => (e.1 ++ String.mk (List.replicate (53 - e.1.length) '.'), e.2)) := by
  induction m with
  | nil => rfl
  | cons p rest ih =>
    obtain ⟨k0, v0⟩ := p
    simp [printLines, ih, formatSplit_eq]

theorem ascendingKeys_cons (k0 : String) (v0 : ℚ) (rest : SplitMap) :
    ascendingKeys ((k0, v0) :: rest) ↔ (∀ e ∈ rest, k0 < e.1) ∧ ascendingKeys rest := by
  simp [ascendingKeys, List.pairwise_cons]

theorem mem_insertSorted (m : SplitMap) (k : String) (v : ℚ) (e : String × ℚ)
    (h : e ∈ insertSorted m k v) : e = (k, v) ∨ e ∈ m := by
  induction m with
  | nil => simpa [insertSorted] using h
  | cons p rest ih =>
    obtain ⟨k0, v0⟩ := p
    by_cases hlt : k < k0
    · simp only [insertSorted, if_pos hlt, List.mem_cons] at h
      rcases h with h | h | h
      · exact Or.inl h
      · exact Or.inr (by simp [h])
      · exact Or.inr (by simp [h])
    · simp only [insertSorted, if_neg hlt, List.mem_cons] at h
      rcases h with h | h
      · exact Or.inr (by simp [h])
      · rcases ih h with h1 | h1
        · exact Or.inl h1
        · exact Or.inr (by simp [h1])

theorem ascendingKeys_insertSorted (m : SplitMap) (k : String) (v : ℚ)
    (hs : ascendingKeys m) (hk : mapFind m k = none) :
    ascendingKeys (insertSorted m k v) := by
  induction m with
  | nil => simp [insertSorted, ascendingKeys]
  | cons p rest ih =>
    obtain ⟨k0, v0⟩ := p
    obtain ⟨h1, h2⟩ := (ascendingKeys_cons k0 v0 rest).mp hs
    by_cases hk0 : k0 = k
    · simp [mapFind, hk0] at hk
    · simp only [mapFind, if_neg hk0] at hk
      by_cases hlt : k < k0
      · simp only [insertSorted, if_pos hlt]
        refine (ascendingKeys_cons k v _).mpr ⟨?_, hs⟩
        intro e he
        rcases List.mem_cons.mp he with he | he
        · rw [he]; exact hlt
        · exact lt_trans hlt (h1 e he)
      · simp only [insertSorted, if_neg hlt]
        refine (ascendingKeys_cons k0 v0 _).mpr ⟨?_, ih h2 hk⟩
        intro e he
        rcases mem_insertSorted rest k v e he with he | he
        · rw [he]; exact lt_of_le_of_ne (not_lt.mp hlt) hk0
        · exact h1 e he

theorem mapModify_keys (m : SplitMap) (k : String) (f : ℚ → ℚ) :
    (mapModify m k f).map Prod.fst = m.map Prod.fst := by
  induction m with
  | nil => rfl
  | cons p rest ih =>
    obtain ⟨k0, v0⟩ := p
    by_cases hk : k0 = k
    · simp [mapModify, hk]
    · simp [mapModify, hk, ih]

theorem ascendingKeys_recordSplit (mach : Bool) (t : Timer) (m : SplitMap) (now : timespec)
    (l : String) (hs : ascendingKeys m) : ascendingKeys (recordSplit mach t m now l).2 := by
  by_cases h : mapFind m l = none
  · simp only [recordSplit, h, ne_eq, not_true_eq_false, if_false, mapInsert,
      Option.isSome_none, Bool.false_eq_true]
    exact ascendingKeys_insertSorted m l _ hs h
  · simp only [recordSplit, ne_eq, h, not_false_eq_true, if_true, mapIndex_of_found m l h]
    unfold ascendingKeys
    rw [mapModify_keys]
    exact hs

theorem ascendingKeys_recordAll (mach : Bool) (calls : List (Timer × timespec × String)) :
    ∀ m : SplitMap, ascendingKeys m → ascendingKeys (recordAll mach m calls) := by
  induction calls with
  | nil => intro m hm; simpa [recordAll] using hm
  | cons c rest ih =>
    intro m hm
    have := ih _ (ascendingKeys_recordSplit mach c.1 m c.2.1 c.2.2 hm)
    simpa [recordAll] using this

/-- C19. Layout of `printSplits`: it emits exactly one line per ledger entry,
in the order of the map, which is ascending label order for every ledger
built by `recordSplit` calls from an empty one, and leaves the ledger as it
is; in each line the label is followed by `max(0, 53 - length(label))`
periods (53 = 80 - 13 - 11 - 3), so for a label of at most 53 characters the
label and the fill take exactly 53 characters before the duration. -/
theorem C19_printSplits_layout (m : SplitMap) :
    (printSplits m).2 = m ∧
    (printSplits m).1.length = m.length ∧
    (printSplits m).1
      = m.map (fun e => (e.1 ++ String.mk (List.replicate (53 - e.1.length) '.'), e.2)) ∧
    ((53 : Int) = 80 - 13 - 11 - 3) ∧
    (∀ e ∈ m, e.1.length ≤ 53 →
      (e.1 ++ String.mk (List.replicate (53 - e.1.length) '.')).length = 53) ∧
    (∀ e ∈ m, 53 ≤ e.1.length → formatSplit e.1 = e.1) ∧
    (∀ (mach : Bool) (calls : List (Timer × timespec × String)),
      ascendingKeys (recordAll mach [] calls) ∧
      ascendingKeys (recordAll mach (clearSplits m) calls)) := by
  have hlines := printLines_eq_map m
  refine ⟨rfl, ?_, hlines, by norm_num, ?_, ?_, ?_⟩
  · show (printLines m).length = m.length
    rw [hlines, List.length_map]
  · intro e _ hlen
    have hfill : (String.mk (List.replicate (53 - e.1.length) '.')).length
        = 53 - e.1.length :=
      List.length_replicate _ _
    rw [String.length_append, hfill]
    omega
  · intro e _ hlen
    rw [formatSplit_eq]
    have : 53 - e.1.length = 0 := by omega
    rw [this]
    apply String.ext
    simp
  · intro mach calls
    have h := ascendingKeys_recordAll mach calls [] (by simp [ascendingKeys])
    exact ⟨h, h⟩

end Timer
